import Mathlib

/-!
Verification of the pipeline-orchestration core of the no-code ETL builder
(backend under `app/`): the graph planner (`build_path` in
`app/api/v1/pipelines.py`), pipeline validation (`validate_pipeline`),
the schedule compiler (`frequency_to_cron` / `calculate_next_run` in
`app/api/v1/schedules.py` and the `trigger_schedule` endpoint), the worker
tasks (`execute_pipeline`, `check_scheduled_pipelines`, `monitor_execution`
in `app/workers/tasks/pipeline.py`), and the sandboxed code executor
(`CodeExecutor.execute_python` in `app/core/code_executor.py`).

Modelling conventions: timestamps are natural numbers counting minutes since
an epoch that falls on a Monday 00:00 UTC (the code stores UTC ISO strings and
compares them as instants); the `croniter` library is modelled on the cron
dialect actually generated by `frequency_to_cron` (minute and hour fields that
are literals or `*`, day-of-month and month `*`, day-of-week a literal list or
`*`); external effects (Airflow HTTP calls, the Celery queue, exceptions
raised by user scripts) are passed in as explicit outcome values.
-/

/-- A node of a pipeline graph: the `id` and `type` entries of the node dicts
in `pipeline.config["nodes"]`. -/
structure PNode where
  id : String
  ntype : String
deriving DecidableEq, Repr

/-- An edge of a pipeline graph: the `source` and `target` entries of the edge
dicts in `pipeline.config["edges"]`. -/
structure PEdge where
  source : String
  target : String
deriving DecidableEq, Repr

/-- The mutable state of `build_path`: the `visited` set (as a list of ids,
most recently added first) and the `execution_order` list. -/
structure PlanState where
  visited : List String
  order : List PNode
deriving DecidableEq, Repr

/-- A pending activity of the `build_path` recursion: either processing a
target id, or walking the list of incoming edges of the current target. -/
inductive PlanJob where
  | node (tid : String) (st : PlanState)
  | srcs (es : List PEdge) (st : PlanState)

/-- The tail of `build_path`: `current_node = next((n for n in nodes if
n["id"] == target_id), None); if current_node: execution_order.append(...)`. -/
def appendCurrent (nodes : List PNode) (tid : String) (st : PlanState) : PlanState :=
  match nodes.find? (fun n => n.id == tid) with
  | some n => ⟨st.visited, st.order ++ [n]⟩
  | none => st

/-- Fuel-indexed embedding of the recursive `build_path` closure of
`preview_node_output` (`app/api/v1/pipelines.py`): if the target is visited,
return; otherwise mark it visited, recurse into the source of every incoming
edge (skipping falsy sources), then append the target's node.  The fuel only
bounds the recursion depth; `planFuel` below always suffices. -/
def runPlan (nodes : List PNode) (edges : List PEdge) : Nat → PlanJob → Option PlanState
  | 0, _ => none
  | fuel+1, .node tid st =>
    if tid ∈ st.visited then some st
    else
      match runPlan nodes edges fuel
          (.srcs (edges.filter (fun e => e.target == tid)) ⟨tid :: st.visited, st.order⟩) with
      | none => none
      | some st2 => some (appendCurrent nodes tid st2)
  | _+1, .srcs [] st => some st
  | fuel+1, .srcs (e :: rest) st =>
    if e.source ≠ "" then
      match runPlan nodes edges fuel (.node e.source st) with
      | none => none
      | some st1 => runPlan nodes edges fuel (.srcs rest st1)
    else runPlan nodes edges fuel (.srcs rest st)

/-- A depth bound under which `runPlan` is proved to always return `some`. -/
def planFuel (edges : List PEdge) (tid : String) : Nat :=
  ((tid :: edges.map PEdge.source).length + 1) * (edges.length + 2)

/-- `build_path(target_id)` run from an empty state, i.e. the planner's
single-target entry point. -/
def planFromTarget (nodes : List PNode) (edges : List PEdge) (tid : String) : Option PlanState :=
  runPlan nodes edges (planFuel edges tid) (.node tid ⟨[], []⟩)

/-- Modelled from the spec: the no-target entry point (`planGraph(null)`) is
described as running the backward traversal "from every loader node when no
target given"; only the single-target `build_path` appears under `src/`, so
the wrapper iterating it over the loader nodes with a shared visited set and
order is taken from the spec's words. -/
def planAllLoaders (nodes : List PNode) (edges : List PEdge) : Option PlanState :=
  (nodes.filter (fun n => n.ntype == "loader")).foldl
    (fun acc l => acc.bind (fun st => runPlan nodes edges (planFuel edges l.id) (.node l.id st)))
    (some ⟨[], []⟩)

/-- Ids mentioned by any edge (`connected_nodes` in `validate_pipeline`). -/
def connectedIds (edges : List PEdge) : List String :=
  edges.map PEdge.source ++ edges.map PEdge.target

/-- `orphaned = node_ids - connected_nodes` of `validate_pipeline` (node ids
are collected as a set, hence the `dedup`). -/
def orphanedIds (nodes : List PNode) (edges : List PEdge) : List String :=
  ((nodes.map PNode.id).dedup).filter (fun i => !((connectedIds edges).contains i))

/-- Result shape of `validate_pipeline`: error type tags, warning type tags
with the reported disconnected-node count, and the `valid` flag. -/
structure VResult where
  errors : List String
  warnings : List (String × Nat)
  valid : Bool
deriving DecidableEq, Repr

/-- The validation rules of `validate_pipeline` (`app/api/v1/pipelines.py`):
empty pipeline, orphaned-node warning, at least one node of type `extractor`,
at least one node of type `loader`; `valid` iff no errors. -/
def validatePipeline (nodes : List PNode) (edges : List PEdge) : VResult :=
  let e1 := if nodes.isEmpty then ["empty_pipeline"] else []
  let e2 := if !nodes.isEmpty && !(nodes.any (fun n => n.ntype == "extractor")) then
      ["missing_extractor"] else []
  let e3 := if !nodes.isEmpty && !(nodes.any (fun n => n.ntype == "loader")) then
      ["missing_loader"] else []
  let errors := e1 ++ e2 ++ e3
  let orphaned := orphanedIds nodes edges
  let warnings := if nodes.length > 1 && !orphaned.isEmpty then
      [("orphaned_nodes", orphaned.length)] else []
  ⟨errors, warnings, errors.isEmpty⟩

/-- There is a (non-empty) edge path from `a` to `b` in `edges`: `b` is a
transitive dependent of `a`, i.e. `a` is a transitive dependency of `b`. -/
inductive PathPlus (edges : List PEdge) : String → String → Prop where
  | base {e : PEdge} : e ∈ edges → PathPlus edges e.source e.target
  | trans {a b c : String} : PathPlus edges a b → PathPlus edges b c → PathPlus edges a c

/-- `m` occurs strictly before `n` in the list `L`. -/
def beforeIn (L : List PNode) (m n : PNode) : Prop :=
  ∃ i j : Nat, i < j ∧ L[i]? = some m ∧ L[j]? = some n

/-- Number of ids of `u` not yet visited; measures the remaining work of the
traversal. -/
def countNew (u : List String) (visited : List String) : Nat :=
  (u.filter (fun x => decide (x ∉ visited))).length

/-- Minute-of-hour of a timestamp (minutes since a Monday-00:00 epoch). -/
def minuteOfHour (t : Nat) : Nat := t % 60

/-- Hour-of-day of a timestamp. -/
def hourOfDay (t : Nat) : Nat := t / 60 % 24

/-- Cron day-of-week (0 = Sunday … 6 = Saturday) of a timestamp; the epoch
day is a Monday, i.e. cron day 1. -/
def cronDow (t : Nat) : Nat := (t / 1440 + 1) % 7

/-- A parsed cron expression of the dialect generated by `frequency_to_cron`:
a literal minute, a literal hour or `*`, a day-of-week list or `*`
(day-of-month and month are always `*` there for the supported cases). -/
structure CronSpec where
  minute : Nat
  hour : Option Nat
  dows : Option (List Nat)
deriving DecidableEq, Repr

/-- Does the timestamp `t` match the cron fields? -/
def cronMatches (c : CronSpec) (t : Nat) : Bool :=
  (minuteOfHour t == c.minute) &&
  (match c.hour with | none => true | some h => hourOfDay t == h) &&
  (match c.dows with | none => true | some ds => ds.any (fun d => d == cronDow t))

/-- First matching timestamp at or after `t`, searching at most `fuel`
minutes. -/
def findFirstMatch (c : CronSpec) : Nat → Nat → Option Nat
  | 0, _ => none
  | fuel+1, t => if cronMatches c t then some t else findFirstMatch c fuel (t + 1)

/-- Eight days of minutes: any satisfiable spec of the supported dialect has a
match within this window. -/
def cronSearchWindow : Nat := 8 * 1440

/-- `croniter(cron, base).get_next(datetime)` for the supported dialect: the
least matching timestamp strictly after `base`. -/
def cronNextTime (c : CronSpec) (t : Nat) : Option Nat :=
  findFirstMatch c cronSearchWindow (t + 1)

/-- Split a character list on a separator (the shape `str.split(sep)` has). -/
def splitChars (sep : Char) : List Char → List (List Char)
  | [] => [[]]
  | c :: rest =>
    let r := splitChars sep rest
    if c == sep then [] :: r
    else
      match r with
      | [] => [[c]]
      | h :: t => (c :: h) :: t

/-- Decimal digit value of a character, if it is a digit. -/
def digitVal (c : Char) : Option Nat :=
  if c == '0' then some 0
  else if c == '1' then some 1
  else if c == '2' then some 2
  else if c == '3' then some 3
  else if c == '4' then some 4
  else if c == '5' then some 5
  else if c == '6' then some 6
  else if c == '7' then some 7
  else if c == '8' then some 8
  else if c == '9' then some 9
  else none

/-- `int(field)` on a non-empty all-digit character list. -/
def digitsToNat : List Char → Option Nat
  | [] => none
  | cs =>
    cs.foldl
      (fun acc c =>
        match acc, digitVal c with
        | some n, some d => some (n * 10 + d)
        | _, _ => none)
      (some 0)

/-- Parse a comma-separated cron day-of-week list (values 0–6, as produced by
`frequency_to_cron`'s `day_map`). -/
def parseDows (cs : List Char) : Option (List Nat) :=
  (splitChars ',' cs).foldr
    (fun p acc =>
      match acc, digitsToNat p with
      | some l, some n => if n ≤ 6 then some (n :: l) else none
      | _, _ => none)
    (some [])

/-- Parse a five-field cron string of the supported dialect; anything else
(including day-of-month restrictions) is rejected, which downstream becomes
the fail-closed `None` of `calculate_next_run`. -/
def parseCron (s : String) : Option CronSpec :=
  match splitChars ' ' s.data with
  | [m, h, dom, mon, dow] =>
    if dom == ['*'] && mon == ['*'] then
      match digitsToNat m with
      | some mv =>
        if mv ≤ 59 then
          let hv : Option (Option Nat) :=
            if h == ['*'] then some none
            else match digitsToNat h with
              | some x => if x ≤ 23 then some (some x) else none
              | none => none
          let dv : Option (Option (List Nat)) :=
            if dow == ['*'] then some none
            else match parseDows dow with
              | some l => some (some l)
              | none => none
          match hv, dv with
          | some hh, some dd => some ⟨mv, hh, dd⟩
          | _, _ => none
        else none
      | none => none
    else none
  | _ => none

/-- `croniter(cron, t).get_next(datetime)`: parse, then next match; `none`
models the exception a malformed expression raises. -/
def croniterNext (cron : String) (t : Nat) : Option Nat :=
  (parseCron cron).bind (fun c => cronNextTime c t)

/-- `calculate_next_run(cron_expression, timezone)` of `app/api/v1/schedules.py`
with `now` standing for `datetime.utcnow()`.  As in the source, the `timezone`
parameter is accepted but never used: the computation runs on the UTC clock,
and any `croniter` failure is swallowed into `none`. -/
def calculateNextRun (cronExpression : Option String) (timezone : String) (now : Nat) :
    Option Nat :=
  match cronExpression with
  | none => none
  | some c => croniterNext c now

/-- The recurrence-config dict of a schedule, with the defaults
`config.get(...)` uses in `frequency_to_cron`. -/
structure SchedConfig where
  minute : Nat := 0
  hour : Nat := 0
  day_of_month : Nat := 1
  days_of_week : List String := []
  cron_expression : Option String := none
deriving DecidableEq, Repr

/-- `day_map.get(d, "1")` of `frequency_to_cron`. -/
def dayMapGet (d : String) : String :=
  if d == "monday" then "1"
  else if d == "tuesday" then "2"
  else if d == "wednesday" then "3"
  else if d == "thursday" then "4"
  else if d == "friday" then "5"
  else if d == "saturday" then "6"
  else if d == "sunday" then "0"
  else "1"

/-- `frequency_to_cron(frequency, config)` of `app/api/v1/schedules.py`:
`once` yields no cron; the other frequencies interpolate the config fields
into a five-field cron string. -/
def frequencyToCron (frequency : String) (config : SchedConfig) : Option String :=
  if frequency == "once" then none
  else if frequency == "hourly" then some (toString config.minute ++ " * * * *")
  else if frequency == "daily" then
    some (toString config.minute ++ " " ++ toString config.hour ++ " * * *")
  else if frequency == "weekly" then
    let ds := if config.days_of_week.isEmpty then "1"
      else String.intercalate "," (config.days_of_week.map dayMapGet)
    some (toString config.minute ++ " " ++ toString config.hour ++ " * * " ++ ds)
  else if frequency == "monthly" then
    some (toString config.minute ++ " " ++ toString config.hour ++ " "
      ++ toString config.day_of_month ++ " * *")
  else if frequency == "custom" then some (config.cron_expression.getD "0 0 * * *")
  else some "0 0 * * *"

/-- A `Schedule` row as read and written by `check_scheduled_pipelines`. -/
structure Sched where
  pipeline_id : String
  status : String
  frequency : String
  cron_expression : Option String
  next_run_at : Option Nat
  start_date : Option Nat
  end_date : Option Nat
  total_runs : Nat
  last_run_at : Option Nat
deriving DecidableEq, Repr

/-- Python truthiness of the stored cron expression (`None` and `""` are
falsy). -/
def cronTruthy (c : Option String) : Bool :=
  match c with
  | some s => !(s == "")
  | none => false

/-- One iteration of the loop of `check_scheduled_pipelines`
(`app/workers/tasks/pipeline.py`) on a single schedule row at time `now`:
returns the updated row and the list of pipeline ids dispatched for it.  The
query pre-filter (`status == "active"`, `next_run_at` non-null) appears as the
leading guards. -/
def processSchedule (now : Nat) (s : Sched) : Sched × List String :=
  if s.status == "active" then
    match s.next_run_at with
    | none => (s, [])
    | some nr =>
      if nr ≤ now then
        if (match s.start_date with | some sd => decide (now < sd) | none => false) then (s, [])
        else if (match s.end_date with | some ed => decide (ed < now) | none => false) then
          ({ s with status := "expired" }, [])
        else
          let s1 := { s with total_runs := s.total_runs + 1, last_run_at := some now }
          let s2 :=
            if cronTruthy s.cron_expression && !(s.frequency == "once") then
              match s.cron_expression with
              | some c =>
                match croniterNext c now with
                | some nxt => { s1 with next_run_at := some nxt }
                | none => { s1 with next_run_at := none }
              | none => { s1 with next_run_at := none }
            else
              if s.frequency == "once" then
                { s1 with next_run_at := none, status := "expired" }
              else { s1 with next_run_at := none }
          (s2, [s.pipeline_id])
      else (s, [])
  else (s, [])

/-- The whole due-schedule scan: process each row independently, collecting
the updated rows and every dispatched pipeline id. -/
def checkScheduledPipelines (now : Nat) (ss : List Sched) : List Sched × List String :=
  ss.foldr (fun s acc =>
    let r := processSchedule now s
    (r.1 :: acc.1, r.2 ++ acc.2)) ([], [])

/-- A dataset (pandas DataFrame) modelled as a table of integers. -/
abbrev DataFrame := List (List Int)

/-- A Python value as far as the executor's `isinstance(result, pd.DataFrame)`
check can tell: a DataFrame, or something else with a type name. -/
inductive PyVal where
  | frame (d : DataFrame)
  | other (tyName : String)

/-- The Python exception classes distinguishable by the `except` clauses of
`execute_python`. -/
inductive PyExc where
  | timeoutExc (msg : String)
  | syntaxExc (msg : String)
  | valueExc (msg : String)
  | typeExc (msg : String)
  | otherExc (msg : String)
deriving DecidableEq, Repr

/-- The error classes `execute_python` can let escape to its caller. -/
inductive ExecErr where
  | timeoutErr (msg : String)
  | valueErr (msg : String)
  | typeErr (msg : String)
  | runtimeErr (msg : String)
deriving DecidableEq, Repr

/-- Outcome of calling the user's transform function. -/
inductive CallOutcome where
  | timeout
  | raises (msg : String)
  | returns (v : PyVal)

/-- Outcome of `exec(code, safe_globals, safe_locals)`. -/
inductive BodyOutcome where
  | syntaxError (msg : String)
  | timeoutInExec
  | raisesInExec (msg : String)
  | completes (definesTransform : Bool)

/-- A heap of DataFrame objects addressed by index; models Python object
identity so that copying is observable. -/
abbrev Heap := List DataFrame

/-- Behaviour of the user's transform function: given the values of the
global `df` copy and of its argument, it yields the final values of those two
objects (it may mutate them in place) and its call outcome. -/
abbrev TransformFun := DataFrame → DataFrame → DataFrame × DataFrame × CallOutcome

/-- `df.copy()`: allocate a fresh cell holding the value of cell `r`. -/
def copyCell (h : Heap) (r : Nat) : Heap × Nat :=
  (h ++ [h.getD r []], h.length)

/-- Message of the executor's timeout re-raise. -/
def timeoutMsg (timeout : Nat) : String :=
  "Code execution timed out after " ++ toString timeout ++ " seconds"

/-- The `try` body of `CodeExecutor.execute_python`
(`app/core/code_executor.py`): build `safe_globals` with a copy of the
caller's frame, run the code, look up `transform`, call it on a second copy,
and type-check the result.  The caller's DataFrame lives in heap cell `r`. -/
def executePythonRaw (body : BodyOutcome) (t : TransformFun) (h : Heap) (r : Nat) :
    Heap × Except PyExc DataFrame :=
  let hg := copyCell h r
  let h1 := hg.1
  let gref := hg.2
  match body with
  | .syntaxError m => (h1, .error (.syntaxExc m))
  | .timeoutInExec => (h1, .error (.timeoutExc "Code execution timed out"))
  | .raisesInExec m => (h1, .error (.otherExc m))
  | .completes false =>
    (h1, .error (.valueExc
      "Function 'transform' not found in code. Make sure to define: def transform(df: pd.DataFrame) -> pd.DataFrame"))
  | .completes true =>
    let ha := copyCell h1 r
    let h2 := ha.1
    let aref := ha.2
    let res := t (h2.getD gref []) (h2.getD aref [])
    let h3 := (h2.set gref res.1).set aref res.2.1
    let out : Except PyExc DataFrame :=
      match res.2.2 with
      | .timeout => .error (.timeoutExc "Code execution timed out")
      | .raises m => .error (.otherExc m)
      | .returns (.frame d) => .ok d
      | .returns (.other ty) =>
        .error (.typeExc ("Transform function must return a pandas DataFrame, got " ++ ty))
    (h3, out)

/-- The `except` ladder of `execute_python`: `TimeoutException` is re-raised
as a timeout, `SyntaxError` becomes a `ValueError`, and every other exception
— `TypeError` and `ValueError` included — is re-raised as
`RuntimeError("Transformation failed: ...")`. -/
def handleExc (timeout : Nat) : PyExc → ExecErr
  | .timeoutExc _ => .timeoutErr (timeoutMsg timeout)
  | .syntaxExc m => .valueErr ("Syntax error in code: " ++ m)
  | .valueExc m => .runtimeErr ("Transformation failed: " ++ m)
  | .typeExc m => .runtimeErr ("Transformation failed: " ++ m)
  | .otherExc m => .runtimeErr ("Transformation failed: " ++ m)

/-- `CodeExecutor.execute_python` as observed by its caller: the final heap
and either the result DataFrame or the escaping error. -/
def executePython (timeout : Nat) (body : BodyOutcome) (t : TransformFun) (h : Heap) (r : Nat) :
    Heap × Except ExecErr DataFrame :=
  let res := executePythonRaw body t h r
  (res.1, res.2.mapError (handleExc timeout))

/-- A `PipelineExecution` row as written by the worker task
`execute_pipeline`. -/
structure ExecutionRecord where
  status : String
  airflow_dag_run_id : Option String
  error_message : Option String
  started_at : Option Nat
  trigger_type : String
deriving DecidableEq, Repr

/-- The worker task `execute_pipeline` (`app/workers/tasks/pipeline.py`) after
the pipeline row is found: create the execution in `pending`, generate the
Airflow DAG artifact, trigger the DAG, and on success move to `running` with
the Airflow run id as correlation id.  Any exception flows to the single
`except` block, which persists `failed` with the error message and re-raises
(second component: the re-raised error, if any).  `dagGen` and `trig` are the
outcomes of the DAG-generation and trigger calls. -/
def executePipelineTask (dagGen : Except String String) (trig : Except String String)
    (now : Nat) (triggerType : String) : ExecutionRecord × Option String :=
  let base : ExecutionRecord := ⟨"pending", none, none, none, triggerType⟩
  match dagGen with
  | .error e => ({ base with status := "failed", error_message := some e }, some e)
  | .ok _ =>
    match trig with
    | .error e => ({ base with status := "failed", error_message := some e }, some e)
    | .ok runId =>
      ({ base with
          status := "running"
          airflow_dag_run_id := some runId
          started_at := some now }, none)

/-- Response of the `trigger_schedule` endpoint (`app/api/v1/schedules.py`). -/
structure TriggerResponse where
  celery_task_id : Option String
  airflow_dag_run_id : Option String
  status : String
deriving DecidableEq, Repr

/-- The backend choice of `trigger_schedule`: when the schedule is synced to
Airflow, try the Airflow REST trigger and on any failure fall back to
enqueuing the Celery `execute_pipeline` task, recording its task id; when not
synced, go straight to Celery.  Either way the response reports
`"triggered"`. -/
def triggerSchedule (airflowSynced : Bool) (airflowResp : Except String String)
    (celeryTaskId : String) : TriggerResponse :=
  if airflowSynced then
    match airflowResp with
    | .ok runId => ⟨none, some runId, "triggered"⟩
    | .error _ => ⟨some celeryTaskId, none, "triggered"⟩
  else ⟨some celeryTaskId, none, "triggered"⟩

/-- The remote DAG-run state returned by
`airflow_client.get_dag_run_status`. -/
structure RemoteRun where
  state : String
  start_date : Option Nat
  end_date : Option Nat
deriving DecidableEq, Repr

/-- A `PipelineExecution` row as read and written by `monitor_execution`. -/
structure ExecRow where
  status : String
  airflow_dag_run_id : Option String
  started_at : Option Nat
  completed_at : Option Nat
  duration_seconds : Option Int
deriving DecidableEq, Repr

/-- The `state_mapping` dict of `monitor_execution`. -/
def stateMapping : List (String × String) :=
  [("running", "running"), ("success", "success"), ("failed", "failed"), ("queued", "pending")]

/-- `state_mapping.get(airflow_state, "unknown")`. -/
def mapAirflowState (s : String) : String :=
  match stateMapping.lookup s with
  | some v => v
  | none => "unknown"

/-- The worker task `monitor_execution` (`app/workers/tasks/pipeline.py`):
with no correlation id the row is untouched; otherwise the status is mapped
from the Airflow state, the timestamps are copied when present, and on an end
date the duration is computed from the (possibly just-updated) start. -/
def monitorExecution (row : ExecRow) (remote : RemoteRun) : ExecRow :=
  match row.airflow_dag_run_id with
  | none => row
  | some _ =>
    let r1 := { row with status := mapAirflowState remote.state }
    let r2 := match remote.start_date with
      | some sd => { r1 with started_at := some sd }
      | none => r1
    match remote.end_date with
    | none => r2
    | some ed =>
      let r3 := { r2 with completed_at := some ed }
      match r3.started_at with
      | some sd => { r3 with duration_seconds := some ((ed : Int) - (sd : Int)) }
      | none => r3

/-- The execution state machine documented by the spec (§4.6): used to state
that `"unknown"` is outside it. -/
def specExecutionStatuses : List String :=
  ["pending", "running", "success", "failed", "cancelled"]

/-- The invariant of the `build_path` traversal, relative to the ghost stack
`S` of ids whose frames are still open (grey nodes), innermost first:
the stack is visited; order entries are visited, have distinct ids, and are
not grey; every finished (visited, non-grey) id has all its edge sources
visited and finished; every finished id that has a node in `nodes` has that
node in the order; and every ordered node comes after the nodes of its direct
edge sources. -/
def PlanInv (nodes : List PNode) (edges : List PEdge) (st : PlanState) (S : List String) :
    Prop :=
  (∀ s ∈ S, s ∈ st.visited) ∧
  (∀ n ∈ st.order, n.id ∈ st.visited) ∧
  (st.order.map PNode.id).Nodup ∧
  (∀ n ∈ st.order, n.id ∉ S) ∧
  (∀ v ∈ st.visited, v ∉ S → ∀ e ∈ edges, e.target = v → e.source ≠ "" →
    e.source ∈ st.visited ∧ e.source ∉ S) ∧
  (∀ v ∈ st.visited, v ∉ S → ∀ m ∈ nodes, m.id = v → m ∈ st.order) ∧
  (∀ n ∈ st.order, ∀ e ∈ edges, e.target = n.id → e.source ≠ "" →
    ∀ m ∈ nodes, m.id = e.source → beforeIn st.order m n)

/-- Fixture: extractor node `A`. -/
def nodeA : PNode := ⟨"A", "extractor"⟩

/-- Fixture: transformer node `B`. -/
def nodeB : PNode := ⟨"B", "transformer"⟩

/-- Fixture: loader node `C`. -/
def nodeC : PNode := ⟨"C", "loader"⟩

/-- Fixture: edge `A → B`. -/
def edgeAB : PEdge := ⟨"A", "B"⟩

/-- Fixture: edge `B → C`. -/
def edgeBC : PEdge := ⟨"B", "C"⟩

/-- Fixture: extractor node `X` of the cyclic graph. -/
def nodeX : PNode := ⟨"X", "extractor"⟩

/-- Fixture: loader node `Y` of the cyclic graph. -/
def nodeY : PNode := ⟨"Y", "loader"⟩

/-- Fixture: edge `X → Y`. -/
def edgeXY : PEdge := ⟨"X", "Y"⟩

/-- Fixture: edge `Y → X`, closing the cycle. -/
def edgeYX : PEdge := ⟨"Y", "X"⟩

/-- Fixture: a transform function that leaves both copies alone and returns a
non-DataFrame value of Python type `int`. -/
def returnsInt : TransformFun := fun g a => (g, a, .returns (.other "int"))

/-- Fixture: a due one-shot schedule. -/
def schedOnce : Sched :=
  ⟨"pipe-once", "active", "once", none, some 50, none, none, 0, none⟩

/-- Fixture: the Wednesday-02:00 weekly schedule of the spec scenario, due
(next run recorded for Wednesday 02:00 = minute 3000 of the model's
Monday-epoch week). -/
def schedWed : Sched :=
  ⟨"pipe-1", "active", "weekly", some "0 2 * * 3", some 3000, none, none, 41, none⟩

/-- Fixture: an execution row mid-run with an Airflow correlation id. -/
def rowRunning : ExecRow := ⟨"running", some "manual__2025-11-01", some 10, none, none⟩

/-- Fixture: a remote DAG-run state outside the mapped set. -/
def remoteRetry : RemoteRun := ⟨"up_for_retry", none, none⟩

/-! ### Cron search lemmas -/

set_option maxRecDepth 4000

/-- `findFirstMatch` only returns timestamps at or after the start of the
search. -/
theorem findFirstMatch_ge (c : CronSpec) :
    ∀ (fuel s r : Nat), findFirstMatch c fuel s = some r → s ≤ r := by
  intro fuel
  induction fuel with
  | zero => intro s r h; simp [findFirstMatch] at h
  | succ n ih =>
    intro s r h
    rw [findFirstMatch] at h
    by_cases hm : cronMatches c s
    · simp [hm] at h; omega
    · simp [hm] at h
      have := ih (s + 1) r h
      omega

/-- Characterisation of a successful bounded search: it returns the least
matching timestamp. -/
theorem findFirstMatch_eq_of (c : CronSpec) :
    ∀ (fuel s r : Nat), s ≤ r → r < s + fuel → cronMatches c r = true →
      (∀ u, s ≤ u → u < r → cronMatches c u = false) →
      findFirstMatch c fuel s = some r := by
  intro fuel
  induction fuel with
  | zero => intro s r h1 h2 _ _; omega
  | succ n ih =>
    intro s r h1 h2 hr hbelow
    rw [findFirstMatch]
    by_cases hs : s = r
    · subst hs; simp [hr]
    · have hlt : s < r := lt_of_le_of_ne h1 hs
      have hfs : cronMatches c s = false := hbelow s le_rfl hlt
      simp [hfs]
      exact ih (s + 1) r hlt (by omega) hr (fun u hu1 hu2 => hbelow u (by omega) hu2)

/-- The weekly-Wednesday-02:00 spec matches exactly the instants that are
3000 minutes into the 10080-minute week of the Monday epoch. -/
theorem cronMatches_wed (u : Nat) :
    cronMatches ⟨0, some 2, some [3]⟩ u = true ↔ u % 10080 = 3000 := by
  have hdd : u / 60 / 24 = u / 1440 := by
    rw [Nat.div_div_eq_div_mul]
  have hdd2 : u / 1440 / 7 = u / 10080 := by
    rw [Nat.div_div_eq_div_mul]
  simp only [cronMatches, minuteOfHour, hourOfDay, cronDow, Bool.and_eq_true, beq_iff_eq,
    List.any_cons, List.any_nil, Bool.or_false]
  omega

/-- `croniter("0 2 * * 3").get_next` from Wednesday 02:01 of the first week
is Wednesday 02:00 of the following week. -/
theorem croniterNext_wed : croniterNext "0 2 * * 3" 3001 = some 13080 := by
  have hp : parseCron "0 2 * * 3" = some ⟨0, some 2, some [3]⟩ := by decide
  have h1 : croniterNext "0 2 * * 3" 3001 =
      (parseCron "0 2 * * 3").bind (fun c => cronNextTime c 3001) := rfl
  rw [h1, hp, Option.some_bind]
  unfold cronNextTime
  apply findFirstMatch_eq_of
  · omega
  · unfold cronSearchWindow
    omega
  · rw [cronMatches_wed]
  · intro u hu1 hu2
    rw [← Bool.not_eq_true, cronMatches_wed]
    omega

/-- `croniter("30 9 * * *").get_next` from minute 1000 (Monday 16:40) is
minute 2010 (Tuesday 09:30 UTC). -/
theorem croniterNext_daily : croniterNext "30 9 * * *" 1000 = some 2010 := by
  have hp : parseCron "30 9 * * *" = some ⟨30, some 9, none⟩ := by decide
  have h1 : croniterNext "30 9 * * *" 1000 =
      (parseCron "30 9 * * *").bind (fun c => cronNextTime c 1000) := rfl
  rw [h1, hp, Option.some_bind]
  unfold cronNextTime
  apply findFirstMatch_eq_of
  · omega
  · unfold cronSearchWindow
    omega
  · decide
  · intro u hu1 hu2
    rw [← Bool.not_eq_true]
    simp only [cronMatches, minuteOfHour, hourOfDay, Bool.and_eq_true, beq_iff_eq]
    omega

/-- C5 counterexample: the next-run computation is not performed in the
schedule's declared timezone.  With cron `"30 9 * * *"`, declared timezone
America/New_York (300 minutes west of UTC in winter), and reference minute
1000, `calculate_next_run` returns minute 2010 — 09:30 on the UTC clock but
04:30 on the declared local clock, not 09:30 local — and the result is
byte-identical to the one computed for declared timezone UTC. -/
theorem calculateNextRun_ignores_timezone :
    calculateNextRun (some "30 9 * * *") "America/New_York" 1000 = some 2010 ∧
    hourOfDay 2010 = 9 ∧ minuteOfHour 2010 = 30 ∧
    hourOfDay (2010 - 300) = 4 ∧ minuteOfHour (2010 - 300) = 30 ∧
    calculateNextRun (some "30 9 * * *") "America/New_York" 1000 =
      calculateNextRun (some "30 9 * * *") "UTC" 1000 :=
  ⟨croniterNext_daily, by decide, by decide, by decide, by decide, rfl⟩

/-- C5 (amended): `calculate_next_run` computes the next occurrence on the
UTC clock, ignoring the declared timezone entirely — any two timezones give
identical results — and whenever it returns a timestamp, that timestamp
strictly exceeds the reference time. -/
theorem calculateNextRun_utc_strict :
    (∀ c tz1 tz2 now, calculateNextRun c tz1 now = calculateNextRun c tz2 now) ∧
    (∀ c tz now t', calculateNextRun c tz now = some t' → now < t') := by
  constructor
  · intro c tz1 tz2 now
    cases c <;> rfl
  · intro c tz now t' h
    cases c with
    | none => simp [calculateNextRun] at h
    | some s =>
      simp only [calculateNextRun, croniterNext] at h
      cases hp : parseCron s with
      | none => rw [hp] at h; simp at h
      | some spec =>
        rw [hp, Option.some_bind] at h
        unfold cronNextTime at h
        have := findFirstMatch_ge spec cronSearchWindow (now + 1) t' h
        omega

/-- C5 witness: the amended theorem applied to the daily-09:30 cron at
reference minute 1000. -/
theorem calculateNextRun_utc_strict_witness :
    calculateNextRun (some "30 9 * * *") "UTC" 1000 = some 2010 ∧ 1000 < 2010 := by
  have h : calculateNextRun (some "30 9 * * *") "UTC" 1000 = some 2010 := croniterNext_daily
  exact ⟨h, calculateNextRun_utc_strict.2 (some "30 9 * * *") "UTC" 1000 2010 h⟩

/-- C6: compiling frequency `once` yields no cron expression, and every
once-schedule that the due-schedule scan fires (dispatches) ends in status
`expired` with `next_run_at` cleared, never recomputed. -/
theorem once_schedule_expires :
    (∀ config, frequencyToCron "once" config = none) ∧
    (∀ now s, s.frequency = "once" → (processSchedule now s).2 ≠ [] →
      (processSchedule now s).1.status = "expired" ∧
      (processSchedule now s).1.next_run_at = none) := by
  refine ⟨fun config => rfl, ?_⟩
  intro now s hfreq hfired
  unfold processSchedule at hfired ⊢
  by_cases h1 : (s.status == "active") = true
  · simp only [h1, if_true] at hfired ⊢
    cases hnr : s.next_run_at with
    | none => simp [hnr] at hfired
    | some nr =>
      simp only [hnr] at hfired ⊢
      by_cases h2 : nr ≤ now
      · simp only [h2, if_true] at hfired ⊢
        by_cases h3 : (match s.start_date with
            | some sd => decide (now < sd) | none => false) = true
        · simp [h3] at hfired
        · simp only [h3] at hfired ⊢
          by_cases h4 : (match s.end_date with
              | some ed => decide (ed < now) | none => false) = true
          · simp [h4] at hfired
          · simp only [h4] at hfired ⊢
            simp [hfreq]
      · simp [h2] at hfired
  · simp [h1] at hfired

/-- C6 witness: the due one-shot fixture schedule fires at minute 100 and
ends expired with no next run. -/
theorem once_schedule_expires_witness :
    schedOnce.frequency = "once" ∧ (processSchedule 100 schedOnce).2 ≠ [] ∧
    (processSchedule 100 schedOnce).1.status = "expired" ∧
    (processSchedule 100 schedOnce).1.next_run_at = none := by
  have h := once_schedule_expires.2 100 schedOnce rfl (by decide)
  exact ⟨rfl, by decide, h.1, h.2⟩

/-- C8: the weekly Wednesday 02:00 schedule compiles to cron `"0 2 * * 3"`;
the due-schedule scan run at Wednesday 02:01 (minute 3001 of the Monday-epoch
week) with `next_run_at` past due dispatches the bound pipeline exactly once,
increments the run counter, and advances `next_run_at` to the following
Wednesday 02:00 (minute 13080 = 3000 + one week). -/
theorem weekly_schedule_scenario :
    frequencyToCron "weekly" { minute := 0, hour := 2, days_of_week := ["wednesday"] } =
      some "0 2 * * 3" ∧
    checkScheduledPipelines 3001 [schedWed] =
      ([{ schedWed with
            total_runs := 42
            last_run_at := some 3001
            next_run_at := some 13080 }], ["pipe-1"]) ∧
    minuteOfHour 3001 = 1 ∧ hourOfDay 3001 = 2 ∧ cronDow 3001 = 3 ∧
    minuteOfHour 13080 = 0 ∧ hourOfDay 13080 = 2 ∧ cronDow 13080 = 3 ∧
    13080 = 3000 + 7 * 1440 := by
  refine ⟨by decide, ?_, by decide, by decide, by decide, by decide, by decide, by decide,
    by decide⟩
  simp only [checkScheduledPipelines, List.foldr]
  simp [processSchedule, schedWed, cronTruthy, croniterNext_wed]

/-- C7 counterexample: a script whose entry function runs but returns an
`int` is rejected by `execute_python`, but the error class its caller
observes is `RuntimeError` (the internal `TypeError` is swallowed by the
final `except Exception` clause and re-raised wrapped), not a
`TypeError`-class error. -/
theorem wrongReturnType_is_runtime_error :
    (executePython 30 (.completes true) returnsInt [[[1]]] 0).2 =
      .error (.runtimeErr
        "Transformation failed: Transform function must return a pandas DataFrame, got int") ∧
    (∀ m, (executePython 30 (.completes true) returnsInt [[[1]]] 0).2 ≠
      Except.error (ExecErr.typeErr m)) := by
  have h1 : (executePython 30 (.completes true) returnsInt [[[1]]] 0).2 =
      .error (.runtimeErr
        "Transformation failed: Transform function must return a pandas DataFrame, got int") := by
    rfl
  refine ⟨h1, fun m hm => ?_⟩
  rw [h1] at hm
  simp at hm

/-- C7 (amended): every script whose entry function executes and returns a
non-DataFrame value is rejected; the rejection is raised internally as a
`TypeError` but surfaces to the caller as a `RuntimeError` wrapping the
`TypeError` message. -/
theorem wrongReturnType_rejected :
    ∀ (timeout : Nat) (t : TransformFun) (h : Heap) (r : Nat) (ty : String),
      (∀ gv av, (t gv av).2.2 = CallOutcome.returns (.other ty)) →
      (executePython timeout (.completes true) t h r).2 =
        .error (.runtimeErr
          ("Transformation failed: Transform function must return a pandas DataFrame, got "
            ++ ty)) := by
  intro timeout t h r ty ht
  simp only [executePython, executePythonRaw, copyCell, ht]
  rfl

/-- C7 witness: the amended theorem applied to the int-returning fixture. -/
theorem wrongReturnType_rejected_witness :
    (executePython 30 (.completes true) returnsInt [[[1]]] 0).2 =
      .error (.runtimeErr
        ("Transformation failed: Transform function must return a pandas DataFrame, got "
          ++ "int")) :=
  wrongReturnType_rejected 30 returnsInt [[[1]]] 0 "int" (fun _ _ => rfl)

/-- C9: for every script execution — successful, erroring, or timed out —
the caller's DataFrame cell is unchanged afterwards: `execute_python` hands
user code only the two `df.copy()` cells, never the caller's. -/
theorem sandbox_private_copy :
    ∀ (timeout : Nat) (body : BodyOutcome) (t : TransformFun) (h : Heap) (r : Nat),
      r < h.length →
      (executePython timeout body t h r).1[r]? = h[r]? := by
  intro timeout body t h r hr
  have hfst : (executePython timeout body t h r).1 = (executePythonRaw body t h r).1 := rfl
  rw [hfst]
  have happ : ∀ x : DataFrame, ∀ l : List DataFrame, r < l.length → (l ++ [x])[r]? = l[r]? := by
    intro x l hl
    rw [List.getElem?_append]
    simp [hl]
  have hr1 : r < (h ++ [h.getD r []]).length := by simp; omega
  cases body with
  | syntaxError m => simp only [executePythonRaw, copyCell]; exact happ _ _ hr
  | timeoutInExec => simp only [executePythonRaw, copyCell]; exact happ _ _ hr
  | raisesInExec m => simp only [executePythonRaw, copyCell]; exact happ _ _ hr
  | completes d =>
    cases d with
    | false => simp only [executePythonRaw, copyCell]; exact happ _ _ hr
    | true =>
      simp only [executePythonRaw, copyCell]
      rw [List.getElem?_set_ne (by simp; omega), List.getElem?_set_ne (by omega)]
      rw [happ _ _ hr1, happ _ _ hr]

/-- C9 witness: a mutating-capable transform run over a one-cell heap leaves
the caller's cell intact. -/
theorem sandbox_private_copy_witness :
    (0 : Nat) < ([[[1]]] : Heap).length ∧
    (executePython 30 (.completes true) returnsInt [[[1]]] 0).1[0]? =
      ([[[1]]] : Heap)[0]? :=
  ⟨by decide, sandbox_private_copy 30 (.completes true) returnsInt [[[1]]] 0 (by decide)⟩

/-- C1 counterexample: when the Airflow trigger fails inside the worker task
`execute_pipeline`, the Execution is persisted as `failed` with the captured
error and the exception re-raised — not as a `running` Execution with a
queue-backed correlation id. -/
theorem dispatch_trigger_failure :
    executePipelineTask (.ok "dag_pipeline.py") (.error "airflow unreachable") 5 "manual" =
      (⟨"failed", none, some "airflow unreachable", none, "manual"⟩,
        some "airflow unreachable") ∧
    (executePipelineTask (.ok "dag_pipeline.py") (.error "airflow unreachable") 5
      "manual").1.status ≠ "running" ∧
    (executePipelineTask (.ok "dag_pipeline.py") (.error "airflow unreachable") 5
      "manual").1.airflow_dag_run_id = none := by
  exact ⟨rfl, by decide, rfl⟩

/-- C1 (amended): if DAG generation or Airflow triggering fails inside the
worker task `execute_pipeline`, the Execution is marked `failed` with the
error message recorded and the exception re-raised; there is no queue
fallback in the worker.  A queue fallback exists only in the schedule
trigger endpoint, which on an Airflow failure enqueues the Celery task,
records its task id, and still reports `"triggered"` (without itself
creating an Execution row). -/
theorem dispatch_trigger_failure_amended :
    (∀ d e now tt, executePipelineTask (.ok d) (.error e) now tt =
      (⟨"failed", none, some e, none, tt⟩, some e)) ∧
    (∀ e trig now tt, executePipelineTask (.error e) trig now tt =
      (⟨"failed", none, some e, none, tt⟩, some e)) ∧
    (∀ a ct, triggerSchedule true (.error a) ct = ⟨some ct, none, "triggered"⟩) := by
  exact ⟨fun d e now tt => rfl, fun e trig now tt => rfl, fun a ct => rfl⟩

/-- C10: an Execution with an orchestrator correlation id whose remote state
falls outside the mapped set `{running, success, failed, queued}` has its
status set and persisted as the literal string `"unknown"` — a value outside
the documented state machine — regardless of its previous status. -/
theorem monitor_unknown_status :
    ∀ (row : ExecRow) (remote : RemoteRun), row.airflow_dag_run_id.isSome →
      remote.state ∉ ["running", "success", "failed", "queued"] →
      (monitorExecution row remote).status = "unknown" ∧
      "unknown" ∉ specExecutionStatuses := by
  intro row remote hcorr hstate
  refine ⟨?_, by decide⟩
  obtain ⟨st, did, sa, ca, ds⟩ := row
  obtain ⟨rst, rsd, red⟩ := remote
  simp only [List.mem_cons, List.not_mem_nil, or_false, not_or] at hstate
  obtain ⟨h1, h2, h3, h4⟩ := hstate
  have b1 : (rst == "running") = false := beq_eq_false_iff_ne.mpr h1
  have b2 : (rst == "success") = false := beq_eq_false_iff_ne.mpr h2
  have b3 : (rst == "failed") = false := beq_eq_false_iff_ne.mpr h3
  have b4 : (rst == "queued") = false := beq_eq_false_iff_ne.mpr h4
  have hmap : mapAirflowState rst = "unknown" := by
    simp [mapAirflowState, stateMapping, List.lookup, b1, b2, b3, b4]
  cases hid : did with
  | none => rw [hid] at hcorr; simp at hcorr
  | some v =>
    cases rsd <;> cases red <;> cases sa <;> simp [monitorExecution, hmap]

/-- C10 witness: a running execution polled while Airflow reports
`up_for_retry` is persisted as `"unknown"`. -/
theorem monitor_unknown_status_witness :
    (monitorExecution rowRunning remoteRetry).status = "unknown" ∧
    "unknown" ∉ specExecutionStatuses :=
  monitor_unknown_status rowRunning remoteRetry (by decide) (by decide)

/-- C4 counterexample: on the graph `[extractor A, transformer B, loader C]`
with only edge `A → B` (edge `B → C` removed), `validate_pipeline` reports no
`missing_loader` error at all — the loader check tests existence of a loader
node, not reachability — and the pipeline even validates as `valid`; only the
orphaned-node warning appears. -/
theorem validate_no_missing_loader :
    validatePipeline [nodeA, nodeB, nodeC] [edgeAB] =
      ⟨[], [("orphaned_nodes", 1)], true⟩ ∧
    "missing_loader" ∉ (validatePipeline [nodeA, nodeB, nodeC] [edgeAB]).errors := by
  exact ⟨by decide, by decide⟩

/-- C4 (amended): with nodes `[extractor A, transformer B, loader C]` and
edges `A→B, B→C`, planning with no target yields `[A, B, C]`; after removing
edge `B→C`, validation reports only an orphaned-node warning counting node
`C` (which is the orphan) and still passes, because the `missing_loader`
check tests loader existence, not reachability from an extractor. -/
theorem plan_abc_and_orphan_warning :
    planAllLoaders [nodeA, nodeB, nodeC] [edgeAB, edgeBC] =
      some ⟨["A", "B", "C"], [nodeA, nodeB, nodeC]⟩ ∧
    validatePipeline [nodeA, nodeB, nodeC] [edgeAB] = ⟨[], [("orphaned_nodes", 1)], true⟩ ∧
    orphanedIds [nodeA, nodeB, nodeC] [edgeAB] = ["C"] := by
  exact ⟨by decide, by decide, by decide⟩

/-! ### Graph planner lemmas -/

theorem getElem?_lt {α : Type} (l : List α) (i : Nat) (x : α) (h : l[i]? = some x) :
    i < l.length := by
  by_contra hc
  rw [List.getElem?_eq_none (le_of_not_lt hc)] at h
  simp at h

theorem appendCurrent_visited (nodes : List PNode) (tid : String) (st : PlanState) :
    (appendCurrent nodes tid st).visited = st.visited := by
  unfold appendCurrent
  cases nodes.find? (fun n => n.id == tid) <;> rfl

theorem beforeIn_append (L : List PNode) (x m n : PNode) (h : beforeIn L m n) :
    beforeIn (L ++ [x]) m n := by
  obtain ⟨i, j, hij, hi, hj⟩ := h
  have hjlen : j < L.length := getElem?_lt L j n hj
  have hilen : i < L.length := lt_trans hij hjlen
  refine ⟨i, j, hij, ?_, ?_⟩
  · rw [List.getElem?_append, if_pos hilen]; exact hi
  · rw [List.getElem?_append, if_pos hjlen]; exact hj

theorem beforeIn_append_mem (L : List PNode) (x m : PNode) (h : m ∈ L) :
    beforeIn (L ++ [x]) m x := by
  obtain ⟨i, hi⟩ := List.mem_iff_getElem?.mp h
  have hilen : i < L.length := getElem?_lt L i m hi
  refine ⟨i, L.length, hilen, ?_, ?_⟩
  · rw [List.getElem?_append, if_pos hilen]; exact hi
  · exact List.getElem?_concat_length L x

theorem beforeIn_trans (L : List PNode) (hnd : L.Nodup) {a b c : PNode}
    (h1 : beforeIn L a b) (h2 : beforeIn L b c) : beforeIn L a c := by
  obtain ⟨i, j, hij, hi, hj⟩ := h1
  obtain ⟨j2, k, hjk, hj2, hk⟩ := h2
  have hjlen : j < L.length := getElem?_lt L j b hj
  have : j = j2 := List.getElem?_inj hjlen hnd (hj.trans hj2.symm)
  exact ⟨i, k, by omega, hi, hk⟩

theorem pathPlus_subrel (edges : List PEdge) (R : String → String → Prop)
    (hbase : ∀ e ∈ edges, R e.source e.target)
    (htrans : ∀ a b c, R a b → R b c → R a c) :
    ∀ a b, PathPlus edges a b → R a b := by
  intro a b h
  induction h with
  | base he => exact hbase _ he
  | trans _ _ ih1 ih2 => exact htrans _ _ _ ih1 ih2

theorem pathPlus_first_edge {edges : List PEdge} {a b : String} (h : PathPlus edges a b) :
    ∃ e ∈ edges, e.source = a := by
  induction h with
  | base he => exact ⟨_, he, rfl⟩
  | trans _ _ ih1 _ => exact ih1

theorem planInv_push (nodes : List PNode) (edges : List PEdge) (st : PlanState)
    (S : List String) (tid : String) (hfresh : tid ∉ st.visited)
    (hInv : PlanInv nodes edges st S) :
    PlanInv nodes edges ⟨tid :: st.visited, st.order⟩ (tid :: S) := by
  obtain ⟨ia, ib0, ib4, ib5, ib1, ib3, ib2⟩ := hInv
  refine ⟨?_, ?_, ib4, ?_, ?_, ?_, ib2⟩
  · intro s hs
    rcases List.mem_cons.mp hs with h | h
    · exact h ▸ List.mem_cons_self _ _
    · exact List.mem_cons_of_mem _ (ia s h)
  · intro n hn
    exact List.mem_cons_of_mem _ (ib0 n hn)
  · intro n hn hmem
    rcases List.mem_cons.mp hmem with h | h
    · exact hfresh (h ▸ ib0 n hn)
    · exact ib5 n hn h
  · intro v hv hvS e he htgt hsrc
    rcases List.mem_cons.mp hv with h | h
    · exact absurd (h ▸ List.mem_cons_self tid S) hvS
    · have hvS2 : v ∉ S := fun hh => hvS (List.mem_cons_of_mem _ hh)
      obtain ⟨hsv, hsS⟩ := ib1 v h hvS2 e he htgt hsrc
      refine ⟨List.mem_cons_of_mem _ hsv, ?_⟩
      intro hmem
      rcases List.mem_cons.mp hmem with hh | hh
      · exact hfresh (hh ▸ hsv)
      · exact hsS hh
  · intro v hv hvS m hm hid
    rcases List.mem_cons.mp hv with h | h
    · exact absurd (h ▸ List.mem_cons_self tid S) hvS
    · have hvS2 : v ∉ S := fun hh => hvS (List.mem_cons_of_mem _ hh)
      exact ib3 v h hvS2 m hm hid

theorem planInv_pop (nodes : List PNode) (edges : List PEdge)
    (Hnodup : (nodes.map PNode.id).Nodup)
    (Hacyc : ∀ v, ¬ PathPlus edges v v)
    (st2 : PlanState) (S : List String) (tid : String)
    (HS : ∀ s ∈ S, PathPlus edges tid s)
    (hInv : PlanInv nodes edges st2 (tid :: S))
    (htid : tid ∈ st2.visited)
    (hsrcs : ∀ e ∈ edges, e.target = tid → e.source ≠ "" → e.source ∈ st2.visited) :
    PlanInv nodes edges (appendCurrent nodes tid st2) S := by
  obtain ⟨ia, ib0, ib4, ib5, ib1, ib3, ib2⟩ := hInv
  have htidS : tid ∉ S := fun h => Hacyc tid (HS tid h)
  have hsrcnotin : ∀ e ∈ edges, e.target = tid → e.source ∉ tid :: S := by
    intro e he htgt hmem
    have hbase : PathPlus edges e.source tid := htgt ▸ PathPlus.base he
    rcases List.mem_cons.mp hmem with h | h
    · exact Hacyc tid (h ▸ hbase)
    · exact Hacyc e.source (PathPlus.trans hbase (HS e.source h))
  unfold appendCurrent
  cases hfind : nodes.find? (fun n => n.id == tid) with
  | none =>
    have hnone : ∀ m ∈ nodes, m.id ≠ tid := by
      intro m hm heq
      have := List.find?_eq_none.mp hfind m hm
      simp [heq] at this
    refine ⟨?_, ib0, ib4, ?_, ?_, ?_, ib2⟩
    · intro s hs; exact ia s (List.mem_cons_of_mem _ hs)
    · intro n hn hns; exact ib5 n hn (List.mem_cons_of_mem _ hns)
    · intro v hv hvS e he htgt hsrc
      by_cases hvt : v = tid
      · subst hvt
        refine ⟨hsrcs e he htgt hsrc, ?_⟩
        exact fun hh => hsrcnotin e he htgt (List.mem_cons_of_mem _ hh)
      · have hv2 : v ∉ tid :: S := by
          intro hh; rcases List.mem_cons.mp hh with h | h
          · exact hvt h
          · exact hvS h
        obtain ⟨h1, h2⟩ := ib1 v hv hv2 e he htgt hsrc
        exact ⟨h1, fun hh => h2 (List.mem_cons_of_mem _ hh)⟩
    · intro v hv hvS m hm hid
      by_cases hvt : v = tid
      · exact absurd (hvt ▸ hid) (hnone m hm)
      · have hv2 : v ∉ tid :: S := by
          intro hh; rcases List.mem_cons.mp hh with h | h
          · exact hvt h
          · exact hvS h
        exact ib3 v hv hv2 m hm hid
  | some nd =>
    have hndmem : nd ∈ nodes := List.mem_of_find?_eq_some hfind
    have hndid : nd.id = tid := by
      have := List.find?_some hfind
      simpa using this
    refine ⟨?_, ?_, ?_, ?_, ?_, ?_, ?_⟩
    · intro s hs; exact ia s (List.mem_cons_of_mem _ hs)
    · intro n hn
      rcases List.mem_append.mp hn with h | h
      · exact ib0 n h
      · rw [List.mem_singleton.mp h, hndid]; exact htid
    · rw [List.map_append]
      rw [List.nodup_append]
      refine ⟨ib4, by simp, ?_⟩
      intro x hx hx2
      simp only [List.map_cons, List.map_nil, List.mem_cons, List.not_mem_nil, or_false]
        at hx2
      obtain ⟨m, hm, hmid⟩ := List.mem_map.mp hx
      rw [hx2, hndid] at hmid
      exact ib5 m hm (hmid ▸ List.mem_cons_self tid S)
    · intro n hn hns
      rcases List.mem_append.mp hn with h | h
      · exact ib5 n h (List.mem_cons_of_mem _ hns)
      · rw [List.mem_singleton.mp h] at hns
        rw [hndid] at hns
        exact htidS hns
    · intro v hv hvS e he htgt hsrc
      by_cases hvt : v = tid
      · subst hvt
        refine ⟨hsrcs e he htgt hsrc, ?_⟩
        exact fun hh => hsrcnotin e he htgt (List.mem_cons_of_mem _ hh)
      · have hv2 : v ∉ tid :: S := by
          intro hh; rcases List.mem_cons.mp hh with h | h
          · exact hvt h
          · exact hvS h
        obtain ⟨h1, h2⟩ := ib1 v hv hv2 e he htgt hsrc
        exact ⟨h1, fun hh => h2 (List.mem_cons_of_mem _ hh)⟩
    · intro v hv hvS m hm hid
      by_cases hvt : v = tid
      · have hmnd : m = nd :=
          List.inj_on_of_nodup_map Hnodup hm hndmem (by rw [hid, hndid, hvt])
        rw [hmnd]
        exact List.mem_append.mpr (Or.inr (List.mem_singleton.mpr rfl))
      · have hv2 : v ∉ tid :: S := by
          intro hh; rcases List.mem_cons.mp hh with h | h
          · exact hvt h
          · exact hvS h
        exact List.mem_append.mpr (Or.inl (ib3 v hv hv2 m hm hid))
    · intro n hn e he htgt hsrc m hm hid
      rcases List.mem_append.mp hn with h | h
      · exact beforeIn_append _ _ _ _ (ib2 n h e he htgt hsrc m hm hid)
      · rw [List.mem_singleton.mp h] at htgt ⊢
        have htgt2 : e.target = tid := by rw [htgt, hndid]
        have hsv : e.source ∈ st2.visited := hsrcs e he htgt2 hsrc
        have hsS : e.source ∉ tid :: S := hsrcnotin e he htgt2
        have hmord : m ∈ st2.order := ib3 e.source hsv hsS m hm hid
        exact beforeIn_append_mem _ _ _ hmord

theorem runPlan_inv (nodes : List PNode) (edges : List PEdge)
    (Hnodup : (nodes.map PNode.id).Nodup)
    (Hacyc : ∀ v, ¬ PathPlus edges v v) :
    ∀ fuel : Nat,
      (∀ tid st S st', PlanInv nodes edges st S → (∀ s ∈ S, PathPlus edges tid s) →
        runPlan nodes edges fuel (.node tid st) = some st' →
        st.visited ⊆ st'.visited ∧ tid ∈ st'.visited ∧ PlanInv nodes edges st' S) ∧
      (∀ p S es st st', PlanInv nodes edges st (p :: S) → (∀ s ∈ S, PathPlus edges p s) →
        (∀ e ∈ es, e ∈ edges ∧ e.target = p) →
        runPlan nodes edges fuel (.srcs es st) = some st' →
        st.visited ⊆ st'.visited ∧ PlanInv nodes edges st' (p :: S) ∧
        (∀ e ∈ es, e.source ≠ "" → e.source ∈ st'.visited)) := by
  intro fuel
  induction fuel with
  | zero =>
    constructor
    · intro tid st S st' _ _ h; simp [runPlan] at h
    · intro p S es st st' _ _ _ h; simp [runPlan] at h
  | succ n ih =>
    obtain ⟨ihN, ihS⟩ := ih
    constructor
    · intro tid st S st' hInv HS hrun
      rw [runPlan] at hrun
      by_cases hvis : tid ∈ st.visited
      · rw [if_pos hvis] at hrun
        injection hrun with h
        subst h
        exact ⟨fun x hx => hx, hvis, hInv⟩
      · rw [if_neg hvis] at hrun
        cases hrec : runPlan nodes edges n
            (.srcs (edges.filter (fun e => e.target == tid)) ⟨tid :: st.visited, st.order⟩) with
        | none => rw [hrec] at hrun; simp at hrun
        | some st2 =>
          rw [hrec] at hrun
          simp only [Option.some.injEq] at hrun
          subst hrun
          have hInv1 : PlanInv nodes edges ⟨tid :: st.visited, st.order⟩ (tid :: S) :=
            planInv_push nodes edges st S tid hvis hInv
          have hes : ∀ e ∈ edges.filter (fun e => e.target == tid),
              e ∈ edges ∧ e.target = tid := by
            intro e he
            have hmf := List.mem_filter.mp he
            exact ⟨hmf.1, by simpa using hmf.2⟩
          obtain ⟨hsub2, hInv2, hsrcs2⟩ := ihS tid S _ _ st2 hInv1 HS hes hrec
          have htid2 : tid ∈ st2.visited := hsub2 (List.mem_cons_self _ _)
          have hsrcs3 : ∀ e ∈ edges, e.target = tid → e.source ≠ "" →
              e.source ∈ st2.visited := by
            intro e he htgt hsrc
            exact hsrcs2 e (List.mem_filter.mpr ⟨he, by simp [htgt]⟩) hsrc
          refine ⟨?_, ?_, planInv_pop nodes edges Hnodup Hacyc st2 S tid HS hInv2 htid2 hsrcs3⟩
          · rw [appendCurrent_visited]
            exact fun x hx => hsub2 (List.mem_cons_of_mem _ hx)
          · rw [appendCurrent_visited]
            exact htid2
    · intro p S es st st' hInv Hp hes hrun
      cases es with
      | nil =>
        rw [runPlan] at hrun
        injection hrun with h
        subst h
        exact ⟨fun x hx => hx, hInv, by simp⟩
      | cons e rest =>
        rw [runPlan] at hrun
        by_cases hsrc : e.source ≠ ""
        · rw [if_pos hsrc] at hrun
          cases hrec : runPlan nodes edges n (.node e.source st) with
          | none => rw [hrec] at hrun; simp at hrun
          | some st1 =>
            rw [hrec] at hrun
            have heedge : e ∈ edges := (hes e (List.mem_cons_self _ _)).1
            have htgt : e.target = p := (hes e (List.mem_cons_self _ _)).2
            have hepath : ∀ s ∈ p :: S, PathPlus edges e.source s := by
              intro s hs
              have hbase : PathPlus edges e.source p := htgt ▸ PathPlus.base heedge
              rcases List.mem_cons.mp hs with h | h
              · exact h ▸ hbase
              · exact PathPlus.trans hbase (Hp s h)
            obtain ⟨hsub1, hsrcmem, hInv1⟩ := ihN e.source st (p :: S) st1 hInv hepath hrec
            obtain ⟨hsub2, hInv2, hsrcs2⟩ := ihS p S rest st1 st' hInv1 Hp
              (fun e2 he2 => hes e2 (List.mem_cons_of_mem _ he2)) hrun
            refine ⟨fun x hx => hsub2 (hsub1 hx), hInv2, ?_⟩
            intro e2 he2 hsrce2
            rcases List.mem_cons.mp he2 with h | h
            · exact h ▸ hsub2 hsrcmem
            · exact hsrcs2 e2 h hsrce2
        · rw [if_neg hsrc] at hrun
          obtain ⟨hsub2, hInv2, hsrcs2⟩ := ihS p S rest st st' hInv Hp
            (fun e2 he2 => hes e2 (List.mem_cons_of_mem _ he2)) hrun
          refine ⟨hsub2, hInv2, ?_⟩
          intro e2 he2 hsrce2
          rcases List.mem_cons.mp he2 with h | h
          · exact absurd (h ▸ hsrce2) hsrc
          · exact hsrcs2 e2 h hsrce2

theorem filterLen_mono {α : Type} (l : List α) (p q : α → Bool)
    (h : ∀ x ∈ l, q x = true → p x = true) :
    (l.filter q).length ≤ (l.filter p).length := by
  induction l with
  | nil => simp
  | cons x xs ih =>
    have ih2 := ih (fun y hy => h y (List.mem_cons_of_mem _ hy))
    by_cases hq : q x = true
    · rw [List.filter_cons_of_pos hq, List.filter_cons_of_pos (h x (List.mem_cons_self _ _) hq)]
      simpa using ih2
    · rw [List.filter_cons_of_neg (by simpa using hq)]
      by_cases hp : p x = true
      · rw [List.filter_cons_of_pos hp]
        exact le_trans ih2 (by simp)
      · rw [List.filter_cons_of_neg (by simpa using hp)]
        exact ih2

theorem filterLen_lt {α : Type} (l : List α) (p q : α → Bool)
    (h : ∀ x ∈ l, q x = true → p x = true)
    (a : α) (ha : a ∈ l) (hpa : p a = true) (hqa : q a = false) :
    (l.filter q).length < (l.filter p).length := by
  induction l with
  | nil => simp at ha
  | cons x xs ih =>
    have hmono := filterLen_mono xs p q (fun y hy => h y (List.mem_cons_of_mem _ hy))
    rcases List.mem_cons.mp ha with rfl | haxs
    · rw [List.filter_cons_of_pos hpa, List.filter_cons_of_neg (by simp [hqa])]
      simpa using Nat.lt_succ_of_le hmono
    · have ih2 := ih (fun y hy => h y (List.mem_cons_of_mem _ hy)) haxs
      by_cases hq : q x = true
      · rw [List.filter_cons_of_pos hq, List.filter_cons_of_pos (h x (List.mem_cons_self _ _) hq)]
        simpa using ih2
      · rw [List.filter_cons_of_neg (by simpa using hq)]
        by_cases hp : p x = true
        · rw [List.filter_cons_of_pos hp]
          exact lt_of_lt_of_le ih2 (by simp)
        · rw [List.filter_cons_of_neg (by simpa using hp)]
          exact ih2

theorem countNew_mono (u v1 v2 : List String) (h : ∀ x ∈ v1, x ∈ v2) :
    countNew u v2 ≤ countNew u v1 := by
  apply filterLen_mono
  intro x _ hq
  simp only [decide_eq_true_eq] at hq ⊢
  intro hx1
  exact hq (h x hx1)

theorem countNew_cons_lt (u visited : List String) (tid : String)
    (htu : tid ∈ u) (htv : tid ∉ visited) :
    countNew u (tid :: visited) < countNew u visited := by
  apply filterLen_lt _ _ _ ?himp tid htu
  · simp [htv]
  · simp
  case himp =>
    intro x _ hq
    simp only [decide_eq_true_eq] at hq ⊢
    intro hx1
    exact hq (List.mem_cons_of_mem _ hx1)

theorem countNew_nil (u : List String) : countNew u [] = u.length := by
  unfold countNew
  have h : u.filter (fun x => decide (x ∉ ([] : List String))) = u :=
    List.filter_eq_self.mpr (by intro a _; simp)
  rw [h]

theorem runPlan_mono (nodes : List PNode) (edges : List PEdge) :
    ∀ fuel : Nat,
      (∀ tid st st', runPlan nodes edges fuel (.node tid st) = some st' →
        st.visited ⊆ st'.visited) ∧
      (∀ es st st', runPlan nodes edges fuel (.srcs es st) = some st' →
        st.visited ⊆ st'.visited) := by
  intro fuel
  induction fuel with
  | zero =>
    constructor
    · intro tid st st' h; simp [runPlan] at h
    · intro es st st' h; simp [runPlan] at h
  | succ n ih =>
    obtain ⟨ihN, ihS⟩ := ih
    constructor
    · intro tid st st' hrun
      rw [runPlan] at hrun
      by_cases hvis : tid ∈ st.visited
      · rw [if_pos hvis] at hrun
        injection hrun with h
        subst h
        exact fun x hx => hx
      · rw [if_neg hvis] at hrun
        cases hrec : runPlan nodes edges n
            (.srcs (edges.filter (fun e => e.target == tid)) ⟨tid :: st.visited, st.order⟩) with
        | none => rw [hrec] at hrun; simp at hrun
        | some st2 =>
          rw [hrec] at hrun
          simp only [Option.some.injEq] at hrun
          subst hrun
          rw [appendCurrent_visited]
          exact fun x hx => ihS _ _ _ hrec (List.mem_cons_of_mem _ hx)
    · intro es st st' hrun
      cases es with
      | nil =>
        rw [runPlan] at hrun
        injection hrun with h
        subst h
        exact fun x hx => hx
      | cons e rest =>
        rw [runPlan] at hrun
        by_cases hsrc : e.source ≠ ""
        · rw [if_pos hsrc] at hrun
          cases hrec : runPlan nodes edges n (.node e.source st) with
          | none => rw [hrec] at hrun; simp at hrun
          | some st1 =>
            rw [hrec] at hrun
            exact fun x hx => ihS _ _ _ hrun (ihN _ _ _ hrec hx)
        · rw [if_neg hsrc] at hrun
          exact ihS _ _ _ hrun

theorem runPlan_total (nodes : List PNode) (edges : List PEdge) (u : List String)
    (hu : ∀ e ∈ edges, e.source ∈ u) :
    ∀ fuel : Nat,
      (∀ tid st, tid ∈ u →
        (countNew u st.visited + 1) * (edges.length + 2) ≤ fuel →
        (runPlan nodes edges fuel (.node tid st)).isSome) ∧
      (∀ es st, (∀ e ∈ es, e ∈ edges) →
        (countNew u st.visited + 1) * (edges.length + 2) + es.length + 1 ≤ fuel →
        (runPlan nodes edges fuel (.srcs es st)).isSome) := by
  intro fuel
  induction fuel with
  | zero =>
    constructor
    · intro tid st _ hle
      have h2 : 1 * 2 ≤ (countNew u st.visited + 1) * (edges.length + 2) :=
        Nat.mul_le_mul (by omega) (by omega)
      omega
    · intro es st _ hle
      have h2 : 1 * 2 ≤ (countNew u st.visited + 1) * (edges.length + 2) :=
        Nat.mul_le_mul (by omega) (by omega)
      omega
  | succ n ih =>
    obtain ⟨ihN, ihS⟩ := ih
    constructor
    · intro tid st htu hle
      rw [runPlan]
      by_cases hvis : tid ∈ st.visited
      · rw [if_pos hvis]; rfl
      · rw [if_neg hvis]
        have hlt : countNew u (tid :: st.visited) < countNew u st.visited :=
          countNew_cons_lt u st.visited tid htu hvis
        have hkey : (countNew u (tid :: st.visited) + 1) * (edges.length + 2) +
            (edges.filter (fun e => e.target == tid)).length + 1 ≤ n := by
          have hA : (countNew u (tid :: st.visited) + 1) * (edges.length + 2) ≤
              countNew u st.visited * (edges.length + 2) :=
            Nat.mul_le_mul_right _ (by omega)
          have hB : countNew u st.visited * (edges.length + 2) + (edges.length + 2) =
              (countNew u st.visited + 1) * (edges.length + 2) :=
            (Nat.succ_mul _ _).symm
          have hC : (edges.filter (fun e => e.target == tid)).length ≤ edges.length :=
            List.length_filter_le _ _
          omega
        have hsome := ihS (edges.filter (fun e => e.target == tid))
          ⟨tid :: st.visited, st.order⟩
          (fun e he => (List.mem_filter.mp he).1) hkey
        obtain ⟨st2, hst2⟩ := Option.isSome_iff_exists.mp hsome
        rw [hst2]
        rfl
    · intro es st hes hle
      cases es with
      | nil => rw [runPlan]; rfl
      | cons e rest =>
        rw [runPlan]
        have hkeyChild : (countNew u st.visited + 1) * (edges.length + 2) ≤ n := by
          simp only [List.length_cons] at hle
          omega
        by_cases hsrc : e.source ≠ ""
        · rw [if_pos hsrc]
          have hchild := ihN e.source st (hu e (hes e (List.mem_cons_self _ _))) hkeyChild
          obtain ⟨st1, hst1⟩ := Option.isSome_iff_exists.mp hchild
          rw [hst1]
          have hmono : st.visited ⊆ st1.visited :=
            (runPlan_mono nodes edges n).1 _ _ _ hst1
          have hcm : countNew u st1.visited ≤ countNew u st.visited :=
            countNew_mono u st.visited st1.visited hmono
          apply ihS rest st1 (fun e2 he2 => hes e2 (List.mem_cons_of_mem _ he2))
          have hA : (countNew u st1.visited + 1) * (edges.length + 2) ≤
              (countNew u st.visited + 1) * (edges.length + 2) :=
            Nat.mul_le_mul_right _ (by omega)
          simp only [List.length_cons] at hle
          omega
        · rw [if_neg hsrc]
          apply ihS rest st (fun e2 he2 => hes e2 (List.mem_cons_of_mem _ he2))
          simp only [List.length_cons] at hle
          omega

theorem planFromTarget_isSome (nodes : List PNode) (edges : List PEdge) (tid : String) :
    (planFromTarget nodes edges tid).isSome := by
  unfold planFromTarget planFuel
  apply (runPlan_total nodes edges (tid :: edges.map PEdge.source)
    (fun e he => List.mem_cons_of_mem _ (List.mem_map_of_mem _ he)) _).1 tid ⟨[], []⟩
    (List.mem_cons_self _ _)
  rw [countNew_nil]

theorem deps_before (nodes : List PNode) (edges : List PEdge) (order : List PNode)
    (Hnodup : (nodes.map PNode.id).Nodup)
    (Hsrc : ∀ e ∈ edges, e.source ≠ "")
    (Hmem : ∀ e ∈ edges, e.source ∈ nodes.map PNode.id)
    (Hord : (order.map PNode.id).Nodup)
    (Hb2 : ∀ n ∈ order, ∀ e ∈ edges, e.target = n.id → e.source ≠ "" →
      ∀ m ∈ nodes, m.id = e.source → beforeIn order m n) :
    ∀ a c, PathPlus edges a c → ∀ nc ∈ order, nc.id = c → ∀ na ∈ nodes, na.id = a →
      beforeIn order na nc := by
  intro a c hpath
  induction hpath with
  | base he =>
    intro nc hnc hncid na hna hnaid
    exact Hb2 nc hnc _ he (by rw [hncid]) (Hsrc _ he) na hna (by rw [hnaid])
  | trans p1 p2 ih1 ih2 =>
    intro nc hnc hncid na hna hnaid
    obtain ⟨e, he, hesrc⟩ := pathPlus_first_edge p2
    have hbmem := Hmem e he
    rw [hesrc] at hbmem
    obtain ⟨nb, hnb, hnbid⟩ := List.mem_map.mp hbmem
    have h2 := ih2 nc hnc hncid nb hnb hnbid
    have hnbord : nb ∈ order := by
      obtain ⟨i, j, hij, hi, hj⟩ := h2
      exact List.mem_iff_getElem?.mpr ⟨i, hi⟩
    have h1 := ih1 nb hnbord hnbid na hna hnaid
    exact beforeIn_trans order (List.Nodup.of_map _ Hord) h1 h2

/-- C2: for every acyclic pipeline graph whose edges reference existing,
non-empty node ids, with distinct node ids, at least one extractor, and a
loader reachable from an extractor, the backward-DFS planner `build_path`
returns an order in which every node appears strictly after all of its
transitive dependencies. -/
theorem build_path_topological_order
    (nodes : List PNode) (edges : List PEdge) (tid : String) (st' : PlanState)
    (Hnodup : (nodes.map PNode.id).Nodup)
    (Hsrc : ∀ e ∈ edges, e.source ≠ "")
    (Hmem : ∀ e ∈ edges, e.source ∈ nodes.map PNode.id)
    (Hacyc : ∀ v, ¬ PathPlus edges v v)
    (Hext : ∃ n ∈ nodes, n.ntype = "extractor")
    (Hreach : ∃ x ∈ nodes, ∃ l ∈ nodes, x.ntype = "extractor" ∧ l.ntype = "loader" ∧
      PathPlus edges x.id l.id)
    (Hrun : planFromTarget nodes edges tid = some st') :
    ∀ n ∈ st'.order, ∀ m ∈ nodes, PathPlus edges m.id n.id → beforeIn st'.order m n := by
  have hInv0 : PlanInv nodes edges ⟨[], []⟩ [] := by
    refine ⟨by simp, by simp, by simp, by simp, by simp, by simp, by simp⟩
  obtain ⟨hsub, htid, hInv⟩ := (runPlan_inv nodes edges Hnodup Hacyc (planFuel edges tid)).1
    tid ⟨[], []⟩ [] st' hInv0 (by simp) Hrun
  obtain ⟨_, _, hord, _, _, _, hb2⟩ := hInv
  intro n hn m hm hpath
  exact deps_before nodes edges st'.order Hnodup Hsrc Hmem hord hb2
    m.id n.id hpath n hn rfl m hm rfl

theorem acyclic_abc : ∀ v, ¬ PathPlus [edgeAB, edgeBC] v v := by
  intro v hv
  have h := pathPlus_subrel [edgeAB, edgeBC]
    (fun a b => (a = "A" ∧ (b = "B" ∨ b = "C")) ∨ (a = "B" ∧ b = "C"))
    (by decide)
    ?htrans v v hv
  · rcases h with ⟨ha, hb⟩ | ⟨ha, hb⟩
    · subst ha; rcases hb with hb | hb <;> simp at hb
    · subst ha; simp at hb
  case htrans =>
    intro a b c h1 h2
    rcases h1 with ⟨ha, hb⟩ | ⟨ha, hb⟩ <;> rcases h2 with ⟨hb2, hc⟩ | ⟨hb2, hc⟩ <;>
      rcases hb with hb | hb <;> simp_all

/-- C2 witness: on the A→B→C pipeline, extractor `A` is placed strictly
before loader `C`. -/
theorem build_path_topological_order_witness :
    beforeIn [nodeA, nodeB, nodeC] nodeA nodeC := by
  have hrun : planFromTarget [nodeA, nodeB, nodeC] [edgeAB, edgeBC] "C" =
      some ⟨["A", "B", "C"], [nodeA, nodeB, nodeC]⟩ := by decide
  have h1 : PathPlus [edgeAB, edgeBC] edgeAB.source edgeAB.target :=
    PathPlus.base (List.mem_cons_self _ _)
  have h2 : PathPlus [edgeAB, edgeBC] edgeBC.source edgeBC.target :=
    PathPlus.base (List.mem_cons_of_mem _ (List.mem_cons_self _ _))
  have hAC : PathPlus [edgeAB, edgeBC] "A" "C" := PathPlus.trans h1 h2
  have h := build_path_topological_order [nodeA, nodeB, nodeC] [edgeAB, edgeBC] "C"
    ⟨["A", "B", "C"], [nodeA, nodeB, nodeC]⟩
    (by decide) (by decide) (by decide) acyclic_abc
    ⟨nodeA, List.mem_cons_self _ _, rfl⟩
    ⟨nodeA, List.mem_cons_self _ _,
      nodeC, List.mem_cons_of_mem _ (List.mem_cons_of_mem _ (List.mem_cons_self _ _)),
      rfl, rfl, hAC⟩
    hrun
  exact h nodeC (List.mem_cons_of_mem _ (List.mem_cons_of_mem _ (List.mem_cons_self _ _)))
    nodeA (List.mem_cons_self _ _) hAC

/-- C3 counterexample: the 2-cycle graph `X → Y → X` is cyclic, yet planning
from target `X` does not fail with any error — `build_path` has no cycle
detection; the visited-set simply cuts the recursion and a full order
`[Y, X]` is returned. -/
theorem cyclic_graph_returns_order :
    PathPlus [edgeXY, edgeYX] "X" "X" ∧
    planFromTarget [nodeX, nodeY] [edgeXY, edgeYX] "X" =
      some ⟨["Y", "X"], [nodeY, nodeX]⟩ := by
  have hx : PathPlus [edgeXY, edgeYX] edgeXY.source edgeXY.target :=
    PathPlus.base (List.mem_cons_self _ _)
  have hy : PathPlus [edgeXY, edgeYX] edgeYX.source edgeYX.target :=
    PathPlus.base (List.mem_cons_of_mem _ (List.mem_cons_self _ _))
  exact ⟨PathPlus.trans hx hy, by decide⟩

/-- C3 (amended): planning never fails, cyclic input included — the
visited-set terminates the recursion on every graph — and on the cyclic
graph `X → Y → X` it returns the order `[Y, X]`, which violates dependency
order since `X` (`Y`'s dependency via edge `X → Y`) appears after `Y`. -/
theorem plan_never_fails :
    (∀ nodes edges tid, (planFromTarget nodes edges tid).isSome) ∧
    (planFromTarget [nodeX, nodeY] [edgeXY, edgeYX] "X" =
      some ⟨["Y", "X"], [nodeY, nodeX]⟩ ∧
     PathPlus [edgeXY, edgeYX] nodeX.id nodeY.id) := by
  have hx : PathPlus [edgeXY, edgeYX] edgeXY.source edgeXY.target :=
    PathPlus.base (List.mem_cons_self _ _)
  exact ⟨planFromTarget_isSome, by decide, hx⟩
